import Mathlib

/-!
Verification of `src/evaluators/habitat_sim_evaluator.py` (class
`HabitatSimEvaluator`).

Shallow embedding conventions:
* A Python `dict` (insertion-ordered) is modelled as an association list;
  `d[k]` (read) is `getVal d k : Option _` (a missing key is a `KeyError`,
  modelled as `none` at the lookup site), and `d[k] = v` (write) is
  `setVal d k v`, which updates the entry in place when the key exists and
  appends a new entry otherwise — exactly Python's insertion-order
  semantics.
* Numeric metric values (`float` in the source) are modelled as rationals.
* A `habitat` `Config` node is `CValue.config` (a nested section, itself
  an ordered string-keyed mapping); any non-`Config` value is
  `CValue.scalar`.  `isinstance(x, Config)` is a match on the constructor.
* A raised Python exception is the `Except.error` / `some err` branch of
  the embedded function's result; in-place mutation of the config is made
  explicit by returning the post-call state together with the raised
  exception, so that the state left behind by a raising call is visible.
* Whether the physics-simulator modules are importable is an environment
  fact, not code of this file; it enters `overwrite_simulator_config` as
  the boolean parameter `physicsImportOk`.
-/

namespace HabitatSimEvaluator

/-- Python `d[k]` on an insertion-ordered dict: the value at the first
(and in a real dict, only) entry whose key is `k`, or `none` (KeyError). -/
def getVal {α : Type} : List (String × α) → String → Option α
  | [], _ => none
  | (k', v) :: rest, k => if k' = k then some v else getVal rest k

/-- Python `d[k] = v` on an insertion-ordered dict: overwrite in place if
the key is present, append a fresh entry otherwise. -/
def setVal {α : Type} : List (String × α) → String → α → List (String × α)
  | [], k, v => [(k, v)]
  | (k', v') :: rest, k, v =>
    if k' = k then (k', v) :: rest else (k', v') :: setVal rest k v

/-- Type `EpisodeMetrics`: one episode's mapping from metric name to value
(`Dict[str, float]` in the source; floats modelled as rationals). -/
abbrev EpisodeMetrics := List (String × ℚ)

/-- Type `MetricsCollection`: mapping from episode identifier to that episode's
metrics (`Dict[str, Dict[str, float]]` in the source). -/
abbrev MetricsCollection := List (String × EpisodeMetrics)

/-- Type `AggregateMetrics`: mapping from metric name to an aggregated value. -/
abbrev AggregateMetrics := List (String × ℚ)

/-- Statement `agg_metrics[m] += v` on a `defaultdict(float)`: a missing key reads
as `0.0`, and the written key lands at its old position, or at the end
when fresh. -/
def aggAdd : AggregateMetrics → String → ℚ → AggregateMetrics
  | [], m, v => [(m, v)]
  | (m', v') :: rest, m, v =>
    if m' = m then (m', v' + v) :: rest else (m', v') :: aggAdd rest m v

/-- The accumulation loop of `compute_avg_metrics`:
`for _, metrics in dict_of_metrics.items(): for m, v in metrics.items():
agg_metrics[m] += v`. -/
def aggMetrics (dict_of_metrics : MetricsCollection) : AggregateMetrics :=
  dict_of_metrics.foldl
    (fun agg e => e.2.foldl (fun a p => aggAdd a p.1 p.2) agg) []

/-- Errors `compute_avg_metrics` can raise. -/
inductive AvgErr where
  | zeroDivisionError
deriving DecidableEq

/-- The final comprehension of `compute_avg_metrics`:
`{k: v/len(dict_of_metrics) for k, v in agg_metrics.items()}`, where
evaluating `v/0` raises `ZeroDivisionError`.  `n` is
`len(dict_of_metrics)`. -/
def divideAll (n : Nat) : AggregateMetrics → Except AvgErr AggregateMetrics
  | [] => .ok []
  | (k, v) :: rest =>
    if n = 0 then .error .zeroDivisionError
    else
      match divideAll n rest with
      | .ok tail => .ok ((k, v / (n : ℚ)) :: tail)
      | .error e => .error e

/-- Source method `HabitatSimEvaluator.compute_avg_metrics`. -/
def compute_avg_metrics (dict_of_metrics : MetricsCollection) :
    Except AvgErr AggregateMetrics :=
  divideAll dict_of_metrics.length (aggMetrics dict_of_metrics)

/-- Errors `extract_metrics` can raise: `episode_metrics[metric_name]`
with a missing name is a `KeyError`. -/
inductive ExtractErr where
  | keyError (name : String)
deriving DecidableEq

/-- The dict comprehension of `extract_metrics` for one episode:
`{metric_name: episode_metrics[metric_name] for metric_name in
metric_names}`, built left to right starting from the empty dict `d`. -/
def extractLoop (metrics : EpisodeMetrics) :
    EpisodeMetrics → List String → Except ExtractErr EpisodeMetrics
  | d, [] => .ok d
  | d, n :: rest =>
    match getVal metrics n with
    | some v => extractLoop metrics (setVal d n v) rest
    | none => .error (.keyError n)

/-- One episode's narrowed metrics dict in `extract_metrics`. -/
def extractEpisode (metrics : EpisodeMetrics) (names : List String) :
    Except ExtractErr EpisodeMetrics :=
  extractLoop metrics [] names

/-- The episode loop of `extract_metrics`:
`new_dict_of_metrics[episode_identifier] = {...}` for each episode, in
order, starting from the accumulator `acc = {}`. -/
def extractCollLoop (names : List String) :
    MetricsCollection → MetricsCollection → Except ExtractErr MetricsCollection
  | acc, [] => .ok acc
  | acc, (eid, em) :: rest =>
    match extractEpisode em names with
    | .ok d => extractCollLoop names (setVal acc eid d) rest
    | .error e => .error e

/-- Source method `HabitatSimEvaluator.extract_metrics`. -/
def extract_metrics (dict_of_metrics : MetricsCollection)
    (metric_names : List String) : Except ExtractErr MetricsCollection :=
  extractCollLoop metric_names [] dict_of_metrics

/-- A value stored in a `habitat` config node: either a nested `Config`
section (`isinstance(_, Config)` holds) or anything else (a scalar). -/
inductive CValue where
  | scalar : Int → CValue
  | config : List (String × CValue) → CValue

/-- One config section: an ordered string-keyed mapping of `CValue`s. -/
abbrev ConfigSection := List (String × CValue)

/-- The two sections of the environment config that
`overwrite_simulator_config` touches. -/
structure EnvConfig where
  SIMULATOR : ConfigSection
  PHYSICS_SIMULATOR : ConfigSection

/-- Errors the merge loop of `overwrite_simulator_config` can raise:
`config.SIMULATOR[k]` missing is a `KeyError`; `config.SIMULATOR[k]` not
a mapping makes `config.SIMULATOR[k][inner_k] = _` a `TypeError`. -/
inductive MergeErr where
  | keyError (k : String)
  | typeError (k : String)

/-- The inner loop for a nested physics key `k`:
`for inner_k in config.PHYSICS_SIMULATOR[k].keys():
config.SIMULATOR[k][inner_k] = config.PHYSICS_SIMULATOR[k][inner_k]`.
Each iteration re-reads `SIMULATOR[k]` and assigns one inner field; on a
raise, the state reached so far is returned alongside the error. -/
def innerAssignLoop (k : String) :
    ConfigSection → List (String × CValue) → ConfigSection × Option MergeErr
  | sim, [] => (sim, none)
  | sim, (ik, v) :: rest =>
    match getVal sim k with
    | none => (sim, some (.keyError k))
    | some (.scalar _) => (sim, some (.typeError k))
    | some (.config s) =>
      innerAssignLoop k (setVal sim k (.config (setVal s ik v))) rest

/-- The merge loop of `overwrite_simulator_config`: for each key of
`PHYSICS_SIMULATOR` in order, either merge a nested section field by
field or overwrite the scalar; stops at the first raised error, returning
the partially-mutated `SIMULATOR`. -/
def overwriteLoop :
    ConfigSection → List (String × CValue) → ConfigSection × Option MergeErr
  | sim, [] => (sim, none)
  | sim, (k, CValue.config inner) :: rest =>
    match innerAssignLoop k sim inner with
    | (sim', none) => overwriteLoop sim' rest
    | (sim', some e) => (sim', some e)
  | sim, (k, CValue.scalar v) :: rest =>
    overwriteLoop (setVal sim k (.scalar v)) rest

/-- Errors `overwrite_simulator_config` can raise: a merge error, or the
re-raised `ImportError` when the physics modules fail to import. -/
inductive OverwriteErr where
  | mergeErr (e : MergeErr)
  | importError

/-- Source method `HabitatSimEvaluator.overwrite_simulator_config`.  Mutation of the
config is explicit: the result pairs the post-call config with the raised
exception, if any.  `physicsImportOk` states whether the
physics-simulator modules are importable (the `try: import ...` block);
the import check runs only after the merge loop has completed, and a
failed import does not roll the merge back. -/
def overwrite_simulator_config (physicsImportOk : Bool) (c : EnvConfig) :
    EnvConfig × Option OverwriteErr :=
  match overwriteLoop c.SIMULATOR c.PHYSICS_SIMULATOR with
  | (sim', none) =>
    ({ c with SIMULATOR := sim' },
      if physicsImportOk then none else some .importError)
  | (sim', some e) => ({ c with SIMULATOR := sim' }, some (.mergeErr e))

/-- The not-implemented signal raised by the three abstract methods. -/
inductive NotImplementedSignal where
  | notImplementedError
deriving DecidableEq

/-- Source method `HabitatSimEvaluator.generate_video` on the base type:
`raise NotImplementedError`. -/
def generate_video (episode_id scene_id : String) (agent_seed : Int) :
    Except NotImplementedSignal Unit :=
  .error .notImplementedError

/-- Source method `HabitatSimEvaluator.generate_map` on the base type:
`raise NotImplementedError` (the promised `np.ndarray` is modelled as a
matrix of rationals; no value is ever produced). -/
def generate_map (episode_id scene_id : String)
    (agent_seed map_height : Int) :
    Except NotImplementedSignal (List (List ℚ)) :=
  .error .notImplementedError

/-- Source method `HabitatSimEvaluator.evaluate_and_get_maps` on the base type:
`raise NotImplementedError`. -/
def evaluate_and_get_maps (episode_id_last scene_id_last log_dir : String)
    (map_height : Int) :
    Except NotImplementedSignal MetricsCollection :=
  .error .notImplementedError

/-- Spec-side definition, following the spec's words: the arithmetic mean
of `M[e][k]` over exactly those episodes `e` that contain key `k` (none
when no episode contains `k`). -/
def specMeanOverContaining (M : MetricsCollection) (k : String) : Option ℚ :=
  let es := M.filter (fun e => (getVal e.2 k).isSome)
  if es.length = 0 then none
  else some ((es.map (fun e => (getVal e.2 k).getD 0)).sum / (es.length : ℚ))

/-- Spec-side definition, following the spec's words: the sum of
`M[e][k]` over the episodes in which `k` occurs (an episode lacking `k`
contributes nothing). -/
def specSumOverEpisodes (M : MetricsCollection) (k : String) : ℚ :=
  (M.map (fun e => (getVal e.2 k).getD 0)).sum

/-- The contribution of key `k` to one pass of the accumulation loop over
an episode's `(name, value)` pairs. -/
def pairSum (ep : EpisodeMetrics) (k : String) : ℚ :=
  (ep.map (fun p => if p.1 = k then p.2 else 0)).sum

lemma getVal_setVal_self {α : Type} (d : List (String × α)) (k : String)
    (v : α) : getVal (setVal d k v) k = some v := by
  induction d with
  | nil => simp [setVal, getVal]
  | cons hd tl ih =>
    obtain ⟨k', v'⟩ := hd
    by_cases h : k' = k <;> simp [setVal, getVal, h, ih]

lemma getVal_setVal_ne {α : Type} (d : List (String × α)) (k m : String)
    (v : α) (hne : m ≠ k) : getVal (setVal d k v) m = getVal d m := by
  have hkm : ¬ k = m := fun hh => hne hh.symm
  induction d with
  | nil => simp [setVal, getVal, hkm]
  | cons hd tl ih =>
    obtain ⟨k', v'⟩ := hd
    by_cases h : k' = k
    · subst h
      simp [setVal, getVal, hkm]
    · simp [setVal, getVal, h, ih]

lemma getVal_isSome_any {α : Type} (d : List (String × α)) (k : String) :
    (getVal d k).isSome = d.any (fun p => p.1 == k) := by
  induction d with
  | nil => simp [getVal]
  | cons hd tl ih =>
    obtain ⟨k', v'⟩ := hd
    by_cases h : k' = k <;> simp [getVal, h, ih]

lemma getVal_eq_none_iff {α : Type} (d : List (String × α)) (k : String) :
    getVal d k = none ↔ ∀ p ∈ d, p.1 ≠ k := by
  induction d with
  | nil => simp [getVal]
  | cons hd tl ih =>
    obtain ⟨k', v'⟩ := hd
    by_cases h : k' = k <;> simp [getVal, h, ih]

lemma getVal_map_snd {α β : Type} (l : List (String × α)) (f : α → β)
    (k : String) :
    getVal (l.map (fun kv => (kv.1, f kv.2))) k = (getVal l k).map f := by
  induction l with
  | nil => simp [getVal]
  | cons hd tl ih =>
    obtain ⟨k', v'⟩ := hd
    by_cases h : k' = k <;> simp [getVal, h, ih]

lemma aggAdd_getD (a : AggregateMetrics) (m : String) (v : ℚ) (k : String) :
    ((getVal (aggAdd a m v) k).getD 0)
      = (getVal a k).getD 0 + (if m = k then v else 0) := by
  induction a with
  | nil =>
    by_cases h : m = k <;> simp [aggAdd, getVal, h]
  | cons hd tl ih =>
    obtain ⟨m', v'⟩ := hd
    by_cases h1 : m' = m
    · subst h1
      by_cases h2 : m' = k <;> simp [aggAdd, getVal, h2]
    · by_cases h2 : m' = k
      · subst h2
        have hmk : ¬ m = m' := fun hh => h1 hh.symm
        simp [aggAdd, getVal, h1, hmk]
      · simp [aggAdd, getVal, h1, h2, ih]

lemma aggAdd_isSome (a : AggregateMetrics) (m : String) (v : ℚ)
    (k : String) :
    (getVal (aggAdd a m v) k).isSome
      = ((getVal a k).isSome || (m == k)) := by
  induction a with
  | nil =>
    by_cases h : m = k <;> simp [aggAdd, getVal, h]
  | cons hd tl ih =>
    obtain ⟨m', v'⟩ := hd
    by_cases h1 : m' = m
    · subst h1
      by_cases h2 : m' = k <;> simp [aggAdd, getVal, h2]
    · by_cases h2 : m' = k
      · subst h2
        simp [aggAdd, getVal, h1]
      · simp [aggAdd, getVal, h1, h2, ih]

lemma foldl_aggAdd_getD (k : String) (ep : EpisodeMetrics) :
    ∀ a : AggregateMetrics,
      ((getVal (ep.foldl (fun a p => aggAdd a p.1 p.2) a) k).getD 0)
        = (getVal a k).getD 0 + pairSum ep k := by
  induction ep with
  | nil => intro a; simp [pairSum]
  | cons p t ih =>
    intro a
    simp only [List.foldl_cons]
    rw [ih (aggAdd a p.1 p.2), aggAdd_getD]
    simp [pairSum, add_assoc]

lemma foldl_aggAdd_isSome (k : String) (ep : EpisodeMetrics) :
    ∀ a : AggregateMetrics,
      (getVal (ep.foldl (fun a p => aggAdd a p.1 p.2) a) k).isSome
        = ((getVal a k).isSome || ep.any (fun p => p.1 == k)) := by
  induction ep with
  | nil => intro a; simp
  | cons p t ih =>
    intro a
    simp only [List.foldl_cons]
    rw [ih (aggAdd a p.1 p.2), aggAdd_isSome]
    simp [Bool.or_assoc]

lemma aggMetrics_getD_aux (k : String) (M : MetricsCollection) :
    ∀ a : AggregateMetrics,
      ((getVal (M.foldl (fun agg e => e.2.foldl
          (fun a p => aggAdd a p.1 p.2) agg) a) k).getD 0)
        = (getVal a k).getD 0 + (M.map (fun e => pairSum e.2 k)).sum := by
  induction M with
  | nil => intro a; simp
  | cons e t ih =>
    intro a
    simp only [List.foldl_cons]
    rw [ih, foldl_aggAdd_getD]
    simp [add_assoc]

lemma aggMetrics_getD (M : MetricsCollection) (k : String) :
    ((getVal (aggMetrics M) k).getD 0)
      = (M.map (fun e => pairSum e.2 k)).sum := by
  have h := aggMetrics_getD_aux k M []
  simpa [aggMetrics, getVal] using h

lemma aggMetrics_isSome_aux (k : String) (M : MetricsCollection) :
    ∀ a : AggregateMetrics,
      (getVal (M.foldl (fun agg e => e.2.foldl
          (fun a p => aggAdd a p.1 p.2) agg) a) k).isSome
        = ((getVal a k).isSome
            || M.any (fun e => e.2.any (fun p => p.1 == k))) := by
  induction M with
  | nil => intro a; simp
  | cons e t ih =>
    intro a
    simp only [List.foldl_cons]
    rw [ih, foldl_aggAdd_isSome]
    simp [Bool.or_assoc]

lemma aggMetrics_isSome (M : MetricsCollection) (k : String) :
    (getVal (aggMetrics M) k).isSome
      = M.any (fun e => (getVal e.2 k).isSome) := by
  have h := aggMetrics_isSome_aux k M []
  simp only [aggMetrics]
  rw [h]
  simp only [getVal, Option.isSome_none, Bool.false_or]
  refine congrArg (M.any ·) ?_
  funext e
  rw [getVal_isSome_any]

lemma pairSum_eq_zero (ep : EpisodeMetrics) (k : String)
    (h : ∀ p ∈ ep, p.1 ≠ k) : pairSum ep k = 0 := by
  induction ep with
  | nil => simp [pairSum]
  | cons p t ih =>
    have hp := h p (by simp)
    have ht : ∀ q ∈ t, q.1 ≠ k := fun q hq => h q (by simp [hq])
    simp [pairSum, hp]
    simpa [pairSum] using ih ht

lemma pairSum_eq_getD (ep : EpisodeMetrics) (k : String)
    (h : (ep.map Prod.fst).Nodup) : pairSum ep k = (getVal ep k).getD 0 := by
  induction ep with
  | nil => simp [pairSum, getVal]
  | cons p t ih =>
    obtain ⟨m, v⟩ := p
    simp only [List.map_cons, List.nodup_cons] at h
    by_cases hk : m = k
    · subst hk
      have ht : ∀ q ∈ t, q.1 ≠ m := by
        intro q hq hqm
        exact h.1 (hqm ▸ List.mem_map_of_mem Prod.fst hq)
      have hz := pairSum_eq_zero t m ht
      simp only [pairSum, List.map_cons, List.sum_cons] at *
      simp [getVal, hz]
    · simp only [pairSum, List.map_cons, List.sum_cons] at *
      simp [getVal, hk, ih h.2]

lemma divideAll_ok (n : Nat) (hn : n ≠ 0) (l : AggregateMetrics) :
    divideAll n l = .ok (l.map (fun kv => (kv.1, kv.2 / (n : ℚ)))) := by
  induction l with
  | nil => simp [divideAll]
  | cons kv t ih => simp [divideAll, hn, ih]

lemma compute_avg_metrics_eq (M : MetricsCollection) (hne : M ≠ []) :
    compute_avg_metrics M
      = .ok ((aggMetrics M).map
          (fun kv => (kv.1, kv.2 / (M.length : ℚ)))) := by
  have hn : M.length ≠ 0 := by
    simpa [List.length_eq_zero] using hne
  simp [compute_avg_metrics, divideAll_ok M.length hn]

lemma getVal_map_div (l : AggregateMetrics) (c : ℚ) (k : String) :
    getVal (l.map (fun kv => (kv.1, kv.2 / c))) k
      = (getVal l k).map (fun v => v / c) := by
  induction l with
  | nil => simp [getVal]
  | cons hd tl ih =>
    obtain ⟨k', v'⟩ := hd
    by_cases h : k' = k <;> simp [getVal, h, ih]

lemma avg_getVal_of_appears (M : MetricsCollection) (k : String)
    (hnd : ∀ e ∈ M, (e.2.map Prod.fst).Nodup)
    (h : M.any (fun e => (getVal e.2 k).isSome) = true) :
    getVal ((aggMetrics M).map (fun kv => (kv.1, kv.2 / (M.length : ℚ)))) k
      = some (specSumOverEpisodes M k / (M.length : ℚ)) := by
  rw [getVal_map_div]
  have hs : (getVal (aggMetrics M) k).isSome = true := by
    rw [aggMetrics_isSome]; exact h
  obtain ⟨x, hx⟩ := Option.isSome_iff_exists.mp hs
  have hxS : x = specSumOverEpisodes M k := by
    have hgd := aggMetrics_getD M k
    rw [hx] at hgd
    simp only [Option.getD_some] at hgd
    rw [hgd]
    unfold specSumOverEpisodes
    refine congrArg List.sum (List.map_congr_left ?_)
    intro e he
    exact pairSum_eq_getD e.2 k (hnd e he)
  rw [hx, hxS]
  rfl

lemma avg_getVal_of_not_appears (M : MetricsCollection) (k : String)
    (h : M.any (fun e => (getVal e.2 k).isSome) = false) :
    getVal ((aggMetrics M).map (fun kv => (kv.1, kv.2 / (M.length : ℚ)))) k
      = none := by
  rw [getVal_map_div]
  have hs : getVal (aggMetrics M) k = none := by
    have hi := aggMetrics_isSome M k
    rw [h] at hi
    exact Option.not_isSome_iff_eq_none.mp (by simp [hi])
  rw [hs]
  rfl

/-- C2 (confirmed): for every non-empty `MetricsCollection`,
`compute_avg_metrics` succeeds, and its result maps each metric name that
appears in at least one episode to the sum of that name's values over the
episodes in which it occurs (an episode lacking the name contributes
nothing and causes no error) divided by the total number of episodes;
names appearing in no episode get no entry. -/
theorem compute_avg_metrics_sums_divided_by_total (M : MetricsCollection)
    (hne : M ≠ [])
    (hnd : ∀ e ∈ M, (e.2.map Prod.fst).Nodup) :
    ∃ avg, compute_avg_metrics M = .ok avg ∧
      ∀ k, getVal avg k =
        if M.any (fun e => (getVal e.2 k).isSome)
        then some (specSumOverEpisodes M k / (M.length : ℚ))
        else none := by
  refine ⟨_, compute_avg_metrics_eq M hne, ?_⟩
  intro k
  by_cases h : M.any (fun e => (getVal e.2 k).isSome) = true
  · rw [avg_getVal_of_appears M k hnd h]
    simp [h]
  · have hf : M.any (fun e => (getVal e.2 k).isSome) = false := by
      simpa using h
    rw [avg_getVal_of_not_appears M k hf]
    simp [hf]

/-- C2 witness: the theorem applied to the concrete collection
`{"e1": {"m": 1}, "e2": {"m": 3, "n": 4}}`. -/
theorem compute_avg_metrics_sums_divided_by_total_witness :
    (([("e1", [("m", (1:ℚ))]), ("e2", [("m", 3), ("n", 4)])] :
        MetricsCollection) ≠ [])
    ∧ (∀ e ∈ ([("e1", [("m", (1:ℚ))]), ("e2", [("m", 3), ("n", 4)])] :
        MetricsCollection), (e.2.map Prod.fst).Nodup)
    ∧ (∃ avg, compute_avg_metrics
          [("e1", [("m", (1:ℚ))]), ("e2", [("m", 3), ("n", 4)])] = .ok avg ∧
        ∀ k, getVal avg k =
          if ([("e1", [("m", (1:ℚ))]), ("e2", [("m", 3), ("n", 4)])] :
              MetricsCollection).any (fun e => (getVal e.2 k).isSome)
          then some (specSumOverEpisodes
              [("e1", [("m", (1:ℚ))]), ("e2", [("m", 3), ("n", 4)])] k
              / ((2 : Nat) : ℚ))
          else none) :=
  ⟨by simp, by simp, compute_avg_metrics_sums_divided_by_total _
    (by simp) (by simp)⟩

/-- C1 counterexample: on `{"e1": {"m": 2}, "e2": {}}` the code returns
`{"m": 1}` (sum 2 divided by the 2 episodes), while the arithmetic mean
of `m` over the episodes that contain it is `2`. -/
theorem compute_avg_metrics_not_mean_over_containing :
    (∃ avg, compute_avg_metrics [("e1", [("m", (2:ℚ))]), ("e2", [])]
        = .ok avg ∧ getVal avg "m" = some 1)
    ∧ specMeanOverContaining [("e1", [("m", (2:ℚ))]), ("e2", [])] "m"
        = some 2
    ∧ (1 : ℚ) ≠ 2 := by
  refine ⟨⟨[("m", 1)], ?_, ?_⟩, ?_, by norm_num⟩
  · norm_num [compute_avg_metrics, aggMetrics, aggAdd, divideAll]
  · norm_num [getVal]
  · norm_num [specMeanOverContaining, getVal]

/-- C1 (amended): for every non-empty `MetricsCollection` M and metric
key k appearing in at least one episode, `compute_avg_metrics(M)[k]`
equals the sum of `M[e][k]` over the episodes containing k divided by the
TOTAL number of episodes of M — which is the arithmetic mean over the
episodes containing k only when every episode contains k. -/
theorem compute_avg_metrics_key_value (M : MetricsCollection) (k : String)
    (hne : M ≠ [])
    (hnd : ∀ e ∈ M, (e.2.map Prod.fst).Nodup)
    (hk : ∃ e ∈ M, (getVal e.2 k).isSome) :
    ∃ avg, compute_avg_metrics M = .ok avg ∧
      getVal avg k = some (specSumOverEpisodes M k / (M.length : ℚ)) := by
  refine ⟨_, compute_avg_metrics_eq M hne, ?_⟩
  have h : M.any (fun e => (getVal e.2 k).isSome) = true := by
    rw [List.any_eq_true]
    obtain ⟨e, he, hsome⟩ := hk
    exact ⟨e, he, hsome⟩
  exact avg_getVal_of_appears M k hnd h

/-- C1 witness: the amended theorem applied to
`{"e1": {"m": 1}, "e2": {"m": 3}}` at key `"m"`. -/
theorem compute_avg_metrics_key_value_witness :
    (([("e1", [("m", (1:ℚ))]), ("e2", [("m", 3)])] :
        MetricsCollection) ≠ [])
    ∧ (∀ e ∈ ([("e1", [("m", (1:ℚ))]), ("e2", [("m", 3)])] :
        MetricsCollection), (e.2.map Prod.fst).Nodup)
    ∧ (∃ e ∈ ([("e1", [("m", (1:ℚ))]), ("e2", [("m", 3)])] :
        MetricsCollection), (getVal e.2 "m").isSome)
    ∧ (∃ avg, compute_avg_metrics
          [("e1", [("m", (1:ℚ))]), ("e2", [("m", 3)])] = .ok avg ∧
        getVal avg "m" = some (specSumOverEpisodes
          [("e1", [("m", (1:ℚ))]), ("e2", [("m", 3)])] "m"
          / ((2 : Nat) : ℚ))) :=
  ⟨by simp, by simp, by simp [getVal], compute_avg_metrics_key_value _ "m"
    (by simp) (by simp) (by simp [getVal])⟩

/-- C6 counterexample: `compute_avg_metrics` applied to the empty
collection produces the well-defined result `{}` — no division is ever
evaluated, so no division by zero occurs. -/
theorem compute_avg_metrics_empty_is_defined :
    (compute_avg_metrics ([] : MetricsCollection)).isOk = true := rfl

/-- C6 (amended): applying `compute_avg_metrics` to the empty
`MetricsCollection` performs no division at all and returns the empty
mapping: the dividing comprehension iterates over the accumulated
metrics, of which there are none. -/
theorem compute_avg_metrics_empty :
    compute_avg_metrics ([] : MetricsCollection) = .ok [] := rfl

lemma setVal_append {α : Type} (d : List (String × α)) (k : String) (v : α)
    (h : k ∉ d.map Prod.fst) : setVal d k v = d ++ [(k, v)] := by
  induction d with
  | nil => simp [setVal]
  | cons hd tl ih =>
    obtain ⟨k', v'⟩ := hd
    simp only [List.map_cons, List.mem_cons] at h
    push_neg at h
    have hne : ¬ k' = k := fun hh => h.1 hh.symm
    simp [setVal, hne, ih h.2]

lemma extractLoop_ok (metrics : EpisodeMetrics) :
    ∀ (names : List String) (d : EpisodeMetrics),
      (∀ n ∈ names, (getVal metrics n).isSome) →
      ∃ d', extractLoop metrics d names = .ok d' ∧
        ∀ m, getVal d' m = if m ∈ names then getVal metrics m
                           else getVal d m := by
  intro names
  induction names with
  | nil =>
    intro d _
    exact ⟨d, rfl, fun m => by simp⟩
  | cons n rest ih =>
    intro d h
    obtain ⟨v, hv⟩ := Option.isSome_iff_exists.mp (h n (by simp))
    obtain ⟨d', hok, hprop⟩ :=
      ih (setVal d n v) (fun n' hn' => h n' (by simp [hn']))
    refine ⟨d', ?_, ?_⟩
    · simp [extractLoop, hv, hok]
    · intro m
      rw [hprop m]
      by_cases hm : m ∈ rest
      · simp [hm]
      · by_cases hmn : m = n
        · subst hmn
          simp [hm, getVal_setVal_self, hv]
        · simp [hm, hmn, getVal_setVal_ne d n m v hmn]

lemma extractLoop_err_iff (metrics : EpisodeMetrics) :
    ∀ (names : List String) (d : EpisodeMetrics),
      (∃ err, extractLoop metrics d names = .error err)
        ↔ ∃ n ∈ names, getVal metrics n = none := by
  intro names
  induction names with
  | nil =>
    intro d
    simp [extractLoop]
  | cons n rest ih =>
    intro d
    cases hv : getVal metrics n with
    | none => simp [extractLoop, hv]
    | some v => simp [extractLoop, hv, ih (setVal d n v)]

lemma extractEpisode_err_iff (metrics : EpisodeMetrics)
    (names : List String) :
    (∃ err, extractEpisode metrics names = .error err)
      ↔ ∃ n ∈ names, getVal metrics n = none :=
  extractLoop_err_iff metrics names []

lemma extractCollLoop_ok (names : List String) :
    ∀ (M acc : MetricsCollection),
      (M.map Prod.fst).Nodup →
      (∀ e ∈ M, e.1 ∉ acc.map Prod.fst) →
      (∀ e ∈ M, ∀ n ∈ names, (getVal e.2 n).isSome) →
      ∃ T, extractCollLoop names acc M = .ok (acc ++ T) ∧
        T.map Prod.fst = M.map Prod.fst ∧
        List.Forall₂ (fun r e => r.1 = e.1
          ∧ (∀ n, (getVal r.2 n).isSome ↔ n ∈ names)
          ∧ (∀ n ∈ names, getVal r.2 n = getVal e.2 n)) T M := by
  intro M
  induction M with
  | nil =>
    intro acc _ _ _
    exact ⟨[], by simp [extractCollLoop], by simp, by simp⟩
  | cons e rest ih =>
    intro acc hnd hdisj hall
    obtain ⟨eid, em⟩ := e
    simp only [List.map_cons, List.nodup_cons] at hnd
    obtain ⟨d, hdok, hdprop⟩ :=
      extractLoop_ok em names [] (hall (eid, em) (by simp))
    have hset : setVal acc eid d = acc ++ [(eid, d)] :=
      setVal_append acc eid d (hdisj (eid, em) (by simp))
    have hdisj' : ∀ e' ∈ rest, e'.1 ∉ (acc ++ [(eid, d)]).map Prod.fst := by
      intro e' he'
      simp only [List.map_append, List.mem_append, List.map_cons,
        List.map_nil, List.mem_singleton]
      push_neg
      constructor
      · exact hdisj e' (by simp [he'])
      · intro hfst
        exact hnd.1 (hfst ▸ List.mem_map_of_mem Prod.fst he')
    obtain ⟨T', hTok, hTfst, hTrel⟩ :=
      ih (acc ++ [(eid, d)]) hnd.2 hdisj'
        (fun e' he' => hall e' (by simp [he']))
    refine ⟨(eid, d) :: T', ?_, by simp [hTfst], ?_⟩
    · have : extractCollLoop names acc ((eid, em) :: rest)
          = extractCollLoop names (setVal acc eid d) rest := by
        simp [extractCollLoop, extractEpisode] at *
        simp [hdok]
      rw [this, hset, hTok]
      simp
    · refine List.Forall₂.cons ⟨rfl, ?_, ?_⟩ hTrel
      · intro n
        rw [hdprop n]
        by_cases hn : n ∈ names
        · simpa [hn] using hall (eid, em) (by simp) n hn
        · simp [hn, getVal]
      · intro n hn
        rw [hdprop n]
        simp [hn]

lemma extractCollLoop_err_iff (names : List String) :
    ∀ (M acc : MetricsCollection),
      (∃ err, extractCollLoop names acc M = .error err)
        ↔ ∃ ep ∈ M, ∃ n ∈ names, getVal ep.2 n = none := by
  intro M
  induction M with
  | nil =>
    intro acc
    simp [extractCollLoop]
  | cons e rest ih =>
    intro acc
    obtain ⟨eid, em⟩ := e
    cases hE : extractEpisode em names with
    | ok d =>
      have hnomiss : ¬ ∃ n ∈ names, getVal em n = none := by
        rw [← extractEpisode_err_iff]
        rintro ⟨err, herr⟩
        rw [hE] at herr
        exact Except.noConfusion herr
      simp only [extractCollLoop, hE]
      rw [ih (setVal acc eid d)]
      simp only [List.mem_cons]
      constructor
      · rintro ⟨ep, hep, hmiss⟩
        exact ⟨ep, Or.inr hep, hmiss⟩
      · rintro ⟨ep, hep | hep, hmiss⟩
        · exact absurd (hep ▸ hmiss) (by simpa using hnomiss)
        · exact ⟨ep, hep, hmiss⟩
    | error err =>
      have hmiss : ∃ n ∈ names, getVal em n = none :=
        (extractEpisode_err_iff em names).mp ⟨err, hE⟩
      simp only [extractCollLoop, hE]
      obtain ⟨n, hn, hnone⟩ := hmiss
      constructor
      · intro
        exact ⟨(eid, em), by simp, n, hn, hnone⟩
      · intro
        exact ⟨err, rfl⟩

/-- C4 (confirmed): when every episode of M carries every requested name,
`extract_metrics(M, names)` succeeds with a collection having exactly M's
episode-identifier keys in the same relative order, and where each
episode's new metrics dict holds exactly the requested names as keys,
each mapped to the identical value it had in M. -/
theorem extract_metrics_projects (M : MetricsCollection)
    (names : List String)
    (hnd : (M.map Prod.fst).Nodup)
    (hall : ∀ e ∈ M, ∀ n ∈ names, (getVal e.2 n).isSome) :
    ∃ R, extract_metrics M names = .ok R ∧
      R.map Prod.fst = M.map Prod.fst ∧
      List.Forall₂ (fun r e => r.1 = e.1
        ∧ (∀ n, (getVal r.2 n).isSome ↔ n ∈ names)
        ∧ (∀ n ∈ names, getVal r.2 n = getVal e.2 n)) R M := by
  obtain ⟨T, hok, hfst, hrel⟩ :=
    extractCollLoop_ok names M [] hnd (by simp) hall
  exact ⟨T, by simpa [extract_metrics] using hok, hfst, hrel⟩

/-- C4 witness: the theorem applied to
`{"e1": {"a": 1, "b": 2}, "e2": {"a": 3, "b": 4}}` with names `["b"]`. -/
theorem extract_metrics_projects_witness :
    ((([("e1", [("a", (1:ℚ)), ("b", 2)]), ("e2", [("a", 3), ("b", 4)])] :
        MetricsCollection).map Prod.fst).Nodup)
    ∧ (∀ e ∈ ([("e1", [("a", (1:ℚ)), ("b", 2)]),
          ("e2", [("a", 3), ("b", 4)])] : MetricsCollection),
        ∀ n ∈ ["b"], (getVal e.2 n).isSome)
    ∧ (∃ R, extract_metrics
          [("e1", [("a", (1:ℚ)), ("b", 2)]), ("e2", [("a", 3), ("b", 4)])]
          ["b"] = .ok R ∧
        R.map Prod.fst = (([("e1", [("a", (1:ℚ)), ("b", 2)]),
          ("e2", [("a", 3), ("b", 4)])] : MetricsCollection)).map Prod.fst ∧
        List.Forall₂ (fun r e => r.1 = e.1
          ∧ (∀ n, (getVal r.2 n).isSome ↔ n ∈ ["b"])
          ∧ (∀ n ∈ ["b"], getVal r.2 n = getVal e.2 n)) R
          [("e1", [("a", (1:ℚ)), ("b", 2)]), ("e2", [("a", 3), ("b", 4)])]) :=
  ⟨by simp, by simp [getVal], extract_metrics_projects _ _
    (by simp) (by simp [getVal])⟩

/-- C5 (confirmed): `extract_metrics(M, names)` raises a missing-metric
`KeyError` if and only if some episode of M lacks one of the requested
names; the lookup is never defaulted. -/
theorem extract_metrics_fails_iff_missing (M : MetricsCollection)
    (names : List String) :
    (∃ err, extract_metrics M names = .error err)
      ↔ ∃ ep ∈ M, ∃ n ∈ names, getVal ep.2 n = none := by
  unfold extract_metrics
  exact extractCollLoop_err_iff names M []

/-- C3 (confirmed): on `SIMULATOR = {"A": 1, "B": {"x": 1, "y": 2}}` and
`PHYSICS_SIMULATOR = {"A": 9, "B": {"x": 8}}`, after
`overwrite_simulator_config` (whatever the import outcome) the
`SIMULATOR` section is `{"A": 9, "B": {"x": 8, "y": 2}}`: the scalar key
is fully replaced, the nested section is merged field by field, and the
untouched nested field `y` is preserved. -/
theorem overwrite_simulator_config_overlay_example :
    ∀ imp : Bool,
      (overwrite_simulator_config imp
        ⟨[("A", .scalar 1), ("B", .config [("x", .scalar 1), ("y", .scalar 2)])],
         [("A", .scalar 9), ("B", .config [("x", .scalar 8)])]⟩).1.SIMULATOR
      = [("A", .scalar 9),
         ("B", .config [("x", .scalar 8), ("y", .scalar 2)])] := by
  intro imp
  cases imp <;> rfl

/-- C7 (confirmed): `overwrite_simulator_config` never changes the
`PHYSICS_SIMULATOR` section: it only reads it, so every key and nested
field has the same value after the call as before. -/
theorem overwrite_simulator_config_preserves_physics (imp : Bool)
    (c : EnvConfig) :
    (overwrite_simulator_config imp c).1.PHYSICS_SIMULATOR
      = c.PHYSICS_SIMULATOR := by
  unfold overwrite_simulator_config
  rcases hl : overwriteLoop c.SIMULATOR c.PHYSICS_SIMULATOR with ⟨sim', e⟩
  cases e <;> simp

/-- C8 (confirmed): when the merge loop completes and the physics
modules are not importable, `overwrite_simulator_config` raises the
availability error, and the config it leaves behind carries the fully
merged `SIMULATOR` — the merge is not rolled back. -/
theorem overwrite_simulator_config_import_failure (c : EnvConfig)
    (sim' : ConfigSection)
    (hmerge : overwriteLoop c.SIMULATOR c.PHYSICS_SIMULATOR
      = (sim', none)) :
    overwrite_simulator_config false c
      = ({ c with SIMULATOR := sim' }, some .importError) := by
  unfold overwrite_simulator_config
  rw [hmerge]
  rfl

/-- C8 witness: the theorem applied to
`SIMULATOR = {"A": 1}`, `PHYSICS_SIMULATOR = {"A": 9}`. -/
theorem overwrite_simulator_config_import_failure_witness :
    (overwriteLoop [("A", CValue.scalar 1)] [("A", CValue.scalar 9)]
        = ([("A", CValue.scalar 9)], none))
    ∧ overwrite_simulator_config false
        ⟨[("A", .scalar 1)], [("A", .scalar 9)]⟩
      = (⟨[("A", .scalar 9)], [("A", .scalar 9)]⟩, some .importError) :=
  ⟨rfl, overwrite_simulator_config_import_failure _ _ rfl⟩

/-- C9 (confirmed): invoked on the base type, each of `generate_video`,
`generate_map` and `evaluate_and_get_maps` raises `NotImplementedError`
for every input; none returns a value. -/
theorem base_abstract_methods_not_implemented :
    ∀ (episode_id scene_id : String) (agent_seed map_height : Int)
      (episode_id_last scene_id_last log_dir : String)
      (map_height' : Int),
      generate_video episode_id scene_id agent_seed
          = .error .notImplementedError
      ∧ generate_map episode_id scene_id agent_seed map_height
          = .error .notImplementedError
      ∧ evaluate_and_get_maps episode_id_last scene_id_last log_dir
            map_height'
          = .error .notImplementedError :=
  fun _ _ _ _ _ _ _ _ => ⟨rfl, rfl, rfl⟩

lemma innerAssignLoop_fst_getVal (k' k : String) (hne : k ≠ k') :
    ∀ (l : List (String × CValue)) (sim : ConfigSection),
      getVal (innerAssignLoop k' sim l).1 k = getVal sim k := by
  intro l
  induction l with
  | nil => intro sim; rfl
  | cons p t ih =>
    intro sim
    obtain ⟨ik, v⟩ := p
    cases hv : getVal sim k' with
    | none => simp [innerAssignLoop, hv]
    | some cv =>
      cases cv with
      | scalar x => simp [innerAssignLoop, hv]
      | config s =>
        simp only [innerAssignLoop, hv]
        rw [ih (setVal sim k' (.config (setVal s ik v)))]
        exact getVal_setVal_ne sim k' k _ hne

lemma overwriteLoop_err_of_missing (k : String)
    (inner : List (String × CValue)) (hinner : inner ≠ []) :
    ∀ (phys : List (String × CValue)) (sim : ConfigSection),
      (phys.map Prod.fst).Nodup →
      (k, CValue.config inner) ∈ phys →
      getVal sim k = none →
      ∃ e, (overwriteLoop sim phys).2 = some e := by
  intro phys
  induction phys with
  | nil =>
    intro sim _ hmem _
    exact absurd hmem (List.not_mem_nil _)
  | cons p rest ih =>
    intro sim hnd hmem hmiss
    obtain ⟨k₀, v₀⟩ := p
    simp only [List.map_cons, List.nodup_cons] at hnd
    rcases List.mem_cons.mp hmem with hhead | htail
    · have hk : k = k₀ := congrArg Prod.fst hhead
      have hv : CValue.config inner = v₀ := congrArg Prod.snd hhead
      subst hk
      subst hv
      obtain ⟨q, t, hq⟩ := List.exists_cons_of_ne_nil hinner
      subst hq
      obtain ⟨ik, iv⟩ := q
      exact ⟨.keyError k, by simp [overwriteLoop, innerAssignLoop, hmiss]⟩
    · have hkrest : k ∈ rest.map Prod.fst :=
        List.mem_map_of_mem Prod.fst htail
      have hkne : k ≠ k₀ := fun hh => hnd.1 (hh ▸ hkrest)
      cases v₀ with
      | scalar x =>
        simp only [overwriteLoop]
        exact ih (setVal sim k₀ (.scalar x)) hnd.2 htail
          (by rw [getVal_setVal_ne sim k₀ k _ hkne]; exact hmiss)
      | config inner₀ =>
        rcases hres : innerAssignLoop k₀ sim inner₀ with ⟨sim₂, e₀⟩
        cases e₀ with
        | some e => exact ⟨e, by simp [overwriteLoop, hres]⟩
        | none =>
          have hmiss₂ : getVal sim₂ k = none := by
            have := innerAssignLoop_fst_getVal k₀ k hkne inner₀ sim
            rw [hres] at this
            simpa [hmiss] using this
          obtain ⟨e, he⟩ := ih sim₂ hnd.2 htail hmiss₂
          exact ⟨e, by simp [overwriteLoop, hres, he]⟩

/-- C10 counterexample: `PHYSICS_SIMULATOR = {"B": {}}` with `SIMULATOR`
lacking `"B"`: the nested section is empty, so the inner loop never runs,
`SIMULATOR["B"]` is never read, and the merge succeeds without error and
without creating the section. -/
theorem overwrite_missing_key_empty_section_no_error :
    overwrite_simulator_config true ⟨[], [("B", CValue.config [])]⟩
      = (⟨[], [("B", CValue.config [])]⟩, none) := rfl

/-- C10 (amended): for every key of `PHYSICS_SIMULATOR` whose value is a
NON-EMPTY nested config section, if `SIMULATOR` lacks that key then
`overwrite_simulator_config` fails with a merge-loop error (a lookup
error at that key unless an earlier key raises first, possibly after
having already copied earlier keys) instead of creating the section; an
empty nested section at a missing key is skipped without error. -/
theorem overwrite_missing_nested_key_fails (imp : Bool) (c : EnvConfig)
    (k : String) (inner : List (String × CValue))
    (hnd : (c.PHYSICS_SIMULATOR.map Prod.fst).Nodup)
    (hmem : (k, CValue.config inner) ∈ c.PHYSICS_SIMULATOR)
    (hinner : inner ≠ [])
    (hmiss : getVal c.SIMULATOR k = none) :
    ∃ e, (overwrite_simulator_config imp c).2
      = some (OverwriteErr.mergeErr e) := by
  obtain ⟨e, he⟩ := overwriteLoop_err_of_missing k inner hinner
    c.PHYSICS_SIMULATOR c.SIMULATOR hnd hmem hmiss
  refine ⟨e, ?_⟩
  unfold overwrite_simulator_config
  rcases hl : overwriteLoop c.SIMULATOR c.PHYSICS_SIMULATOR with ⟨sim', err⟩
  rw [hl] at he
  simp only at he
  subst he
  simp

/-- C10 witness: the amended theorem applied to `SIMULATOR = {}`,
`PHYSICS_SIMULATOR = {"B": {"x": 8}}`. -/
theorem overwrite_missing_nested_key_fails_witness :
    ((([("B", CValue.config [("x", CValue.scalar 8)])] :
        List (String × CValue)).map Prod.fst).Nodup)
    ∧ (("B", CValue.config [("x", CValue.scalar 8)])
        ∈ [("B", CValue.config [("x", CValue.scalar 8)])])
    ∧ ([("x", CValue.scalar 8)] ≠ ([] : List (String × CValue)))
    ∧ (getVal ([] : ConfigSection) "B" = none)
    ∧ (∃ e, (overwrite_simulator_config true
        ⟨[], [("B", CValue.config [("x", CValue.scalar 8)])]⟩).2
        = some (OverwriteErr.mergeErr e)) :=
  ⟨by simp, by simp, by simp, rfl,
    overwrite_missing_nested_key_fails true
      ⟨[], [("B", CValue.config [("x", CValue.scalar 8)])]⟩ "B"
      [("x", CValue.scalar 8)] (by simp) (by simp) (by simp) rfl⟩

end HabitatSimEvaluator
